import Mathlib

/-!
# connector-mongodb: backup upload and restore against an object store

A shallow embedding of `cmd/storj.go` (functions `UploadData`,
`findLatestBackup`, `RestoreData`, `MatchAndRestore`) together with the
library functions they call (`path/filepath`, `strings.Split`), followed by
theorems about them.

Conventions of the embedding.

* Go strings are Lean strings. The only bytes the code inspects are `/` and
  `.`, which are single-byte in UTF-8, so working on characters instead of
  bytes changes nothing for well-formed text.
* `log.Fatal` ends the process; it is the failure `Failure.fatal msg`. A Go
  run-time panic (nil dereference, slice bounds) is `Failure.panic msg`.
* Every call on the storage session, every write to the local file system and
  every line printed is appended to a trace of events. The answers of the
  outside world are oracles that may depend on the trace so far.
* `path/filepath` is modelled for a Unix target (separator `/`, no volume
  names).
-/

namespace Connector

/-! ## `path/filepath` (Unix) -/

namespace filepath

/-- The function `os.IsPathSeparator` on Unix. -/
def IsPathSeparator (c : Char) : Bool := c == '/'

/-- The inner loop of the `..` case of `Clean`: starting from write index `w`,
step back while `w > dotdot` and the buffered byte at `w` is not a separator. -/
def backtrackLoop (buf : List Char) (dotdot : Nat) : Nat → Nat
  | 0 => 0
  | w + 1 =>
    if w + 1 > dotdot ∧ buf[w + 1]? ≠ some '/' then backtrackLoop buf dotdot w else w + 1

/-- The `..` case of `Clean` when it can backtrack: `out.w--`, then the inner
loop; the buffer is cut at the resulting write index. -/
def backtrack (out : List Char) (dotdot : Nat) : List Char :=
  out.take (backtrackLoop out dotdot (out.length - 1))

/-- The main loop of `Clean`. `p` is the unread part of the path (`path[r:]`),
`out` the bytes written so far (`out.w = out.length`), `dotdot` the index where
`..` must stop. Every round consumes at least one byte of `p`, so a fuel of
`len(path)` is never exhausted. -/
def cleanLoop (rooted : Bool) : Nat → List Char → List Char → Nat → List Char
  | 0, _, out, _ => out
  | _ + 1, [], out, _ => out
  | fuel + 1, c :: rest, out, dotdot =>
    if c = '/' then
      -- empty path element
      cleanLoop rooted fuel rest out dotdot
    else if c = '.' ∧ (rest = [] ∨ rest.head? = some '/') then
      -- . element
      cleanLoop rooted fuel rest out dotdot
    else if c = '.' ∧ rest.head? = some '.' ∧
        (rest.tail = [] ∨ rest.tail.head? = some '/') then
      -- .. element: remove to last separator
      if out.length > dotdot then
        cleanLoop rooted fuel rest.tail (backtrack out dotdot) dotdot
      else if rooted = false then
        let out1 := if out.length > 0 then out ++ ['/'] else out
        cleanLoop rooted fuel rest.tail (out1 ++ ['.', '.']) (out1.length + 2)
      else
        cleanLoop rooted fuel rest.tail out dotdot
    else
      -- real path element: add slash if needed, copy element
      let out1 :=
        if (rooted = true ∧ out.length ≠ 1) ∨ (rooted = false ∧ out.length ≠ 0) then out ++ ['/']
        else out
      cleanLoop rooted fuel ((c :: rest).dropWhile (fun x => x ≠ '/'))
        (out1 ++ (c :: rest).takeWhile (fun x => x ≠ '/')) dotdot

/-- The function `filepath.Clean` on the characters of a path. -/
def cleanChars (path : List Char) : List Char :=
  match path with
  | [] => ['.']
  | c :: rest =>
    let rooted := IsPathSeparator c
    let out :=
      if rooted then cleanLoop true (c :: rest).length rest ['/'] 1
      else cleanLoop false (c :: rest).length (c :: rest) [] 0
    if out.length = 0 then ['.'] else out

/-- The function `filepath.Base` on characters: strip trailing slashes, keep
what follows the last separator; the empty path gives `.`, a path of slashes
only gives `/`. -/
def baseChars (path : List Char) : List Char :=
  if path = [] then ['.']
  else
    let stripped := (path.reverse.dropWhile (fun x => x = '/')).reverse
    let last := (stripped.reverse.takeWhile (fun x => x ≠ '/')).reverse
    if last = [] then ['/'] else last

/-- The function `filepath.Dir` on characters: everything up to and including
the last separator, cleaned. -/
def dirChars (path : List Char) : List Char :=
  cleanChars (path.reverse.dropWhile (fun x => x ≠ '/')).reverse

/-- The function `strings.Join(elem, "/")` on characters. -/
def joinSep : List (List Char) → List Char
  | [] => []
  | [e] => e
  | e :: es => e ++ '/' :: joinSep es

/-- The function `filepath.Join` on characters: from the first non-empty
element on, join with the separator and clean. -/
def joinChars : List (List Char) → List Char
  | [] => []
  | e :: es => if e ≠ [] then cleanChars (joinSep (e :: es)) else joinChars es

/-- A path element that `Clean` copies as it is: not empty, not `.`, not `..`,
without separator. -/
def NormalElem (e : List Char) : Prop :=
  e ≠ [] ∧ e ≠ ['.'] ∧ e ≠ ['.', '.'] ∧ '/' ∉ e

/-- A stretch of path made of whole elements, each followed by a separator. -/
inductive Closed : List Char → Prop where
  | nil : Closed []
  | seg (s p : List Char) : '/' ∉ s → Closed p → Closed (s ++ '/' :: p)

/-- In a rooted path the buffer of `Clean` keeps its leading separator, and
`dotdot` stays at 1. -/
def RootKept (rooted : Bool) (out : List Char) (dotdot : Nat) : Prop :=
  rooted = true → dotdot = 1 ∧ ∃ t, out = '/' :: t

/-- The function `filepath.Clean`. -/
def Clean (path : String) : String := ⟨cleanChars path.data⟩

/-- The function `filepath.Base`. -/
def Base (path : String) : String := ⟨baseChars path.data⟩

/-- The function `filepath.Dir`. -/
def Dir (path : String) : String := ⟨dirChars path.data⟩

/-- The function `filepath.Join`. -/
def Join (elem : List String) : String := ⟨joinChars (elem.map String.data)⟩

end filepath

/-! ## `strings` -/

namespace strings

/-- The function `strings.Split(s, sep)` for a one-byte separator, on
characters: the pieces of `s` between occurrences of `sep`; the empty string
gives one empty piece. -/
def splitChars (sep : Char) : List Char → List (List Char)
  | [] => [[]]
  | c :: rest =>
    if c = sep then [] :: splitChars sep rest
    else
      match splitChars sep rest with
      | [] => [[c]]
      | piece :: pieces => (c :: piece) :: pieces

/-- The function `strings.Split` with a one-byte separator. -/
def Split (s : String) (sep : Char) : List String :=
  (splitChars sep s.data).map String.mk

end strings

/-! ## Data model -/

/-- The struct `ConfigStorj`. -/
structure ConfigStorj where
  APIKey : String
  Satellite : String
  Bucket : String
  UploadPath : String
  EncryptionPassphrase : String
  SerializedAccess : String
  AllowDownload : String
  AllowUpload : String
  AllowList : String
  AllowDelete : String
  NotBefore : String
  NotAfter : String
  deriving DecidableEq, Repr

/-- The fields of `uplink.Object` the code reads: `Key` and `System.Created`
(an instant, as a number on the time line). -/
structure Object where
  Key : String
  Created : Int
  deriving DecidableEq, Repr

/-- How a run ends abnormally: `log.Fatal` or a Go run-time panic. -/
inductive Failure where
  | fatal (msg : String)
  | panic (msg : String)
  deriving DecidableEq, Repr

/-- The error value returned by `io.CopyBuffer`. -/
inductive CopyErr where
  | nil
  | ErrShortBuffer
  | other (msg : String)
  deriving DecidableEq, Repr

/-- One call of `io.CopyBuffer(upload, dbReader, buf)` as seen by
`UploadData`: the error it returns and the value the package-level variable
`currentCollection` holds when it returns. -/
structure CopyResult where
  err : CopyErr
  currentCollection : String
  deriving DecidableEq, Repr

/-- What a run does to the outside world, in order. -/
inductive Event where
  | print (text : String)
  | listObjects (bucket : String) (pfx : String)
  | downloadObject (bucket : String) (key : String)
  | mkdirAll (path : String)
  | writeFile (name : String) (data : List Nat)
  | uploadObject (handle : Nat) (bucket : String) (key : String)
  | copyBuffer (handle : Nat) (err : CopyErr)
  | commit (handle : Nat)
  deriving DecidableEq, Repr

/-- The collaborators outside the repository: the clock, the storage session
(`*uplink.Project`), the local file system and the `regexp` package. Each
answer may depend on the trace of events so far.

* `listObjects tr bucket pfx`: the items the iterator of `ListObjects` yields.
* `downloadObject tr bucket key`: the error of `DownloadObject`, or else the
  result of `ioutil.ReadAll` on the download (an error or the bytes).
* `writeFile tr name data`: the error of `ioutil.WriteFile`, if any.
* `uploadObject tr bucket key`, `commit tr handle`: the error of
  `UploadObject` and of `upload.Commit`, if any.
* `matchString pattern s`: the result of `regexp.MatchString`. -/
structure World where
  now : List Event → Int
  listObjects : List Event → String → String → List Object
  downloadObject : List Event → String → String → Except String (Except String (List Nat))
  writeFile : List Event → String → List Nat → Option String
  uploadObject : List Event → String → String → Option String
  commit : List Event → Nat → Option String
  matchString : String → String → Except String Bool

deriving instance DecidableEq for Except

/-- The result of a run: how it ended and the trace it left. -/
abbrev Run (α : Type) := Except Failure α × List Event

/-! ## `UploadData` -/

/-- The object key `UploadData` uploads a collection to:
`configStorj.UploadPath+uploadFileName+"/"+collection+".bson"`. -/
def uploadKey (configStorj : ConfigStorj) (uploadFileName : String) (collection : String) : String :=
  configStorj.UploadPath ++ uploadFileName ++ "/" ++ collection ++ ".bson"

/-- The loop `for err1 != nil` of `UploadData`. `dbReader` lists the results of
the calls of `io.CopyBuffer` still to come, `upload` is the handle of the open
put-stream, `opened` the number of put-streams opened so far (the next handle).
The result is the handle that is open when the loop ends; `none` when the
listed copy results run out before one of them is `nil`. -/
def uploadLoop (w : World) (configStorj : ConfigStorj) (uploadFileName : String) :
    List CopyResult → Nat → Nat → List Event → Option (Run Nat)
  | [], _, _, _ => none
  | r :: rest, upload, opened, tr =>
    let tr1 := tr ++ [Event.copyBuffer upload r.err]
    match r.err with
    | CopyErr.nil => some (Except.ok upload, tr1)
    | CopyErr.ErrShortBuffer => uploadLoop w configStorj uploadFileName rest upload opened tr1
    | CopyErr.other _ =>
      -- Commit the current copied collection.
      let tr2 := tr1 ++ [Event.commit upload]
      match w.commit tr1 upload with
      | some err => some (Except.error (Failure.fatal ("Could not commit object upload : " ++ err)), tr2)
      | none =>
        -- Create upload handle for the next collection to be uploaded.
        let key := uploadKey configStorj uploadFileName r.currentCollection
        let tr3 := tr2 ++ [Event.uploadObject opened configStorj.Bucket key]
        match w.uploadObject tr2 configStorj.Bucket key with
        | some err => some (Except.error (Failure.fatal ("Could not initiate upload : " ++ err)), tr3)
        | none =>
          uploadLoop w configStorj uploadFileName rest opened (opened + 1)
            (tr3 ++ [Event.print ("Uploading " ++ key ++ " to " ++ configStorj.Bucket ++ "...\n")])

/-- The function `UploadData`, started on an empty trace. -/
def UploadData (w : World) (configStorj : ConfigStorj) (uploadFileName : String)
    (dbReader : List CopyResult) (firstCollection : String) : Option (Run Unit) :=
  -- Create an upload handle for the first collection.
  let key := uploadKey configStorj uploadFileName firstCollection
  let tr1 := [Event.uploadObject 0 configStorj.Bucket key]
  match w.uploadObject [] configStorj.Bucket key with
  | some err => some (Except.error (Failure.fatal ("Could not initiate upload : " ++ err)), tr1)
  | none =>
    let tr2 := tr1 ++ [Event.print ("\nUploading " ++ key ++ " to " ++ configStorj.Bucket ++ "...\n")]
    match uploadLoop w configStorj uploadFileName dbReader 0 1 tr2 with
    | none => none
    | some (Except.error f, tr3) => some (Except.error f, tr3)
    | some (Except.ok upload, tr3) =>
      -- Commit the upload after copying the last collection.
      let tr4 := tr3 ++ [Event.commit upload]
      match w.commit tr3 upload with
      | some err => some (Except.error (Failure.fatal ("Could not commit object upload : " ++ err)), tr4)
      | none => some (Except.ok (), tr4)

/-- The handles of the put-streams a trace opens, in order. -/
def openedHandles : List Event → List Nat
  | [] => []
  | Event.uploadObject h _ _ :: tr => h :: openedHandles tr
  | _ :: tr => openedHandles tr

/-- The handles a trace commits, in order. -/
def committedHandles : List Event → List Nat
  | [] => []
  | Event.commit h :: tr => h :: committedHandles tr
  | _ :: tr => committedHandles tr

/-! ## `findLatestBackup` -/

/-- The loop `for objects.Next()` of `findLatestBackup`: `i` is the counter,
`latestBackup` the pointer (`none` for nil). Reading
`latestBackup.System.Created` through a nil pointer panics. -/
def latestLoop (now : Int) : List Object → Nat → Option Object → Except Failure (Option Object)
  | [], _, latestBackup => Except.ok latestBackup
  | item :: rest, i, latestBackup =>
    if i = 1 ∧ item.Created < now then
      latestLoop now rest (i + 1) (some item)
    else
      match latestBackup with
      | none => Except.error (Failure.panic "invalid memory address or nil pointer dereference")
      | some l =>
        if item.Created > l.Created then latestLoop now rest (i + 1) (some item)
        else latestLoop now rest (i + 1) (some l)

/-- The function `findLatestBackup`. -/
def findLatestBackup (w : World) (configStorj : ConfigStorj) (databaseName : String)
    (tr : List Event) : Run (Option Object) :=
  let pfx := configStorj.UploadPath ++ databaseName ++ "/"
  let tr1 := tr ++ [Event.listObjects configStorj.Bucket pfx]
  (latestLoop (w.now tr1) (w.listObjects tr configStorj.Bucket pfx) 1 none, tr1)

/-! ## `RestoreData` -/

/-- The local file name `RestoreData` derives from an object key:
`filepath.Join("dump", filepath.Base(filepath.Dir(item.Key)), filepath.Base(item.Key))`. -/
def downloadFileName (key : String) : String :=
  filepath.Join ["dump", filepath.Base (filepath.Dir key), filepath.Base key]

/-- The loop `for collections.Next()` of `RestoreData`: download every item and
write it below `./dump`. -/
def downloadLoop (w : World) (configStorj : ConfigStorj) : List Object → List Event → Run Unit
  | [], tr => (Except.ok (), tr)
  | item :: rest, tr =>
    let tr1 := tr ++ [Event.downloadObject configStorj.Bucket item.Key]
    match w.downloadObject tr configStorj.Bucket item.Key with
    | Except.error err => (Except.error (Failure.fatal err), tr1)
    | Except.ok (Except.error err) => (Except.error (Failure.fatal err), tr1)
    | Except.ok (Except.ok receivedContents) =>
      let name := downloadFileName item.Key
      let tr2 := tr1 ++ [Event.mkdirAll (filepath.Dir name)]
      let tr3 := tr2 ++ [Event.writeFile name receivedContents]
      match w.writeFile tr2 name receivedContents with
      | some err => (Except.error (Failure.fatal err), tr3)
      | none => downloadLoop w configStorj rest tr3

/-- The tail of `RestoreData` after `collections` has been listed with prefix
`pfx`: the download loop and the closing message. -/
def restoreCollections (w : World) (configStorj : ConfigStorj) (databaseName : String)
    (pfx : String) (tr : List Event) : Run Unit :=
  let collections := w.listObjects tr configStorj.Bucket pfx
  match downloadLoop w configStorj collections (tr ++ [Event.listObjects configStorj.Bucket pfx]) with
  | (Except.error f, tr1) => (Except.error f, tr1)
  | (Except.ok (), tr1) =>
    (Except.ok (), tr1 ++ [Event.print ("Latest backup of " ++ databaseName ++ " restored.\n")])

/-- The text of `databaseName[len(databaseName)-1:]`, for a non-empty name. -/
def checkSlash (databaseName : String) : String :=
  ⟨databaseName.data.drop (databaseName.data.length - 1)⟩

/-- The text of `databaseName[:len(databaseName)-1]`. -/
def dropLastByte (databaseName : String) : String :=
  ⟨databaseName.data.take (databaseName.data.length - 1)⟩

/-- The function `RestoreData`. -/
def RestoreData (w : World) (configStorj : ConfigStorj) (databaseName : String) (latest : Bool)
    (tr : List Event) : Run Unit :=
  if latest then
    let tr1 := tr ++ [Event.print ("Restoring the latest backup of " ++ databaseName ++ "...\n")]
    if databaseName = "" then
      (Except.error (Failure.panic "slice bounds out of range [-1:]"), tr1)
    else
      let databaseName1 :=
        if checkSlash databaseName = "/" then dropLastByte databaseName else databaseName
      let pathTokens := strings.Split databaseName1 '/'
      if pathTokens.length > 1 then
        (Except.error (Failure.fatal
          "Error: Invalid regular expression! It should only contain the patter of database name.\n"), tr1)
      else
        match findLatestBackup w configStorj databaseName1 tr1 with
        | (Except.error f, tr2) => (Except.error f, tr2)
        | (Except.ok none, tr2) =>
          (Except.error (Failure.panic "invalid memory address or nil pointer dereference"), tr2)
        | (Except.ok (some latestBackup), tr2) =>
          restoreCollections w configStorj databaseName1 latestBackup.Key tr2
  else
    let tr1 := tr ++ [Event.print ("Restoring the backup of " ++ databaseName ++ "...\n")]
    if databaseName = "" then
      (Except.error (Failure.panic "slice bounds out of range [-1:]"), tr1)
    else
      -- Convert the backup path to standard form
      let databaseName1 :=
        if checkSlash databaseName ≠ "/" then databaseName ++ "/" else databaseName
      restoreCollections w configStorj databaseName1 (configStorj.UploadPath ++ databaseName1) tr1

/-! ## `MatchAndRestore` -/

/-- The loop `for databases.Next()` of `MatchAndRestore`. -/
def matchLoop (w : World) (configStorj : ConfigStorj) (matchPattern : String) (latest : Bool) :
    List Object → List Event → Run Unit
  | [], tr => (Except.ok (), tr)
  | item :: rest, tr =>
    match w.matchString matchPattern item.Key with
    | Except.error err => (Except.error (Failure.fatal err), tr)
    | Except.ok false => matchLoop w configStorj matchPattern latest rest tr
    | Except.ok true =>
      let tr1 := tr ++ [Event.print ("Matching database:  " ++ item.Key ++ "\n")]
      match RestoreData w configStorj (filepath.Base item.Key) latest tr1 with
      | (Except.error f, tr2) => (Except.error f, tr2)
      | (Except.ok (), tr2) => matchLoop w configStorj matchPattern latest rest tr2

/-- The function `MatchAndRestore`. -/
def MatchAndRestore (w : World) (configStorj : ConfigStorj) (matchPattern : String) (latest : Bool)
    (tr : List Event) : Run Unit :=
  if latest = false then
    (Except.error (Failure.fatal "Error: match used without latest flag!"), tr)
  else
    let databases := w.listObjects tr configStorj.Bucket configStorj.UploadPath
    matchLoop w configStorj matchPattern latest databases
      (tr ++ [Event.listObjects configStorj.Bucket configStorj.UploadPath])

/-! ## A fragment of `regexp.MatchString` -/

namespace regexp

/-- Characters that stand for themselves in a regular expression and that the
fragment below admits: letters, digits, underscore and slash. -/
def isLiteralChar (c : Char) : Bool := c.isAlphanum || c == '_' || c == '/'

/-- Whether `lit` occurs in `s` as a contiguous block. -/
def occursIn (lit : List Char) : List Char → Bool
  | [] => lit.isEmpty
  | c :: rest => lit.isPrefixOf (c :: rest) || occursIn lit rest

/-- The function `regexp.MatchString` on the fragment of patterns
`^? literal* $?`: an optional `^`, then letters, digits, underscores and
slashes, then an optional `$`. As in Go the match may start anywhere in `s`
unless anchored. Patterns outside the fragment are not modelled and give an
error value. -/
def MatchString (pattern : String) (s : String) : Except String Bool :=
  let p := pattern.data
  let anchoredStart := p.head? = some '^'
  let p1 := if anchoredStart then p.tail else p
  let anchoredEnd := p1.getLast? = some '$'
  let lit := if anchoredEnd then p1.dropLast else p1
  if lit.all isLiteralChar then
    if anchoredStart ∧ anchoredEnd then Except.ok (decide (s.data = lit))
    else if anchoredStart then Except.ok (lit.isPrefixOf s.data)
    else if anchoredEnd then Except.ok (lit.isSuffixOf s.data)
    else Except.ok (occursIn lit s.data)
  else Except.error "pattern outside the modelled fragment"

end regexp

/-! ## Concrete worlds used in the examples -/

/-- A configuration with bucket `bkt` and upload path `backups/`. -/
def exampleConfig : ConfigStorj :=
  { APIKey := "", Satellite := "", Bucket := "bkt", UploadPath := "backups/",
    EncryptionPassphrase := "", SerializedAccess := "", AllowDownload := "",
    AllowUpload := "", AllowList := "", AllowDelete := "", NotBefore := "", NotAfter := "" }

/-- A world whose storage session answers every listing from the table
`listing`, whose downloads fail exactly on the keys in `broken`, whose writes,
opens and commits succeed, and whose clock reads `now`. -/
def tableWorld (now : Int) (listing : String → List Object) (broken : List String) : World :=
  { now := fun _ => now
    listObjects := fun _ _ pfx => listing pfx
    downloadObject := fun _ _ key =>
      if key ∈ broken then Except.error "download failed" else Except.ok (Except.ok [1, 2, 3])
    writeFile := fun _ _ _ => none
    uploadObject := fun _ _ _ => none
    commit := fun _ _ => none
    matchString := regexp.MatchString }

/-- A store without any object. -/
def emptyStore : String → List Object := fun _ => []

/-- A store with the databases `orders`, `orders_test` and `billing` under
`backups/`, each with one backup of one collection. -/
def threeDatabases : String → List Object := fun pfx =>
  if pfx = "backups/" then
    [⟨"backups/orders/", 0⟩, ⟨"backups/orders_test/", 0⟩, ⟨"backups/billing/", 0⟩]
  else if pfx = "backups/orders/" then [⟨"backups/orders/b1/", 5⟩]
  else if pfx = "backups/orders/b1/" then [⟨"backups/orders/b1/users.bson", 5⟩]
  else if pfx = "backups/orders_test/" then [⟨"backups/orders_test/t1/", 6⟩]
  else if pfx = "backups/orders_test/t1/" then [⟨"backups/orders_test/t1/items.bson", 6⟩]
  else if pfx = "backups/billing/" then [⟨"backups/billing/c1/", 7⟩]
  else if pfx = "backups/billing/c1/" then [⟨"backups/billing/c1/bills.bson", 7⟩]
  else []

/-- A store with the databases `orders` and `orders_test` under `backups/`,
each with one backup of one collection. -/
def twoDatabases : String → List Object := fun pfx =>
  if pfx = "backups/" then [⟨"backups/orders/", 0⟩, ⟨"backups/orders_test/", 0⟩]
  else if pfx = "backups/orders/" then [⟨"backups/orders/b1/", 5⟩]
  else if pfx = "backups/orders/b1/" then [⟨"backups/orders/b1/users.bson", 5⟩]
  else if pfx = "backups/orders_test/" then [⟨"backups/orders_test/t1/", 6⟩]
  else if pfx = "backups/orders_test/t1/" then [⟨"backups/orders_test/t1/items.bson", 6⟩]
  else []

/-- A store where database `orders` has three backups created at 5, 7 and 3. -/
def threeBackups : String → List Object := fun pfx =>
  if pfx = "backups/orders/" then
    [⟨"backups/orders/b1/", 5⟩, ⟨"backups/orders/b2/", 7⟩, ⟨"backups/orders/b0/", 3⟩]
  else if pfx = "backups/orders/b2/" then [⟨"backups/orders/b2/users.bson", 7⟩]
  else []

/-- A store where database `orders` has the backups `b` and `a`, both created
at 5, listed in this order. -/
def tiedBackups : String → List Object := fun pfx =>
  if pfx = "backups/orders/" then [⟨"backups/orders/b/", 5⟩, ⟨"backups/orders/a/", 5⟩] else []

/-- The store `tiedBackups` with the listing in the other order. -/
def tiedBackupsReversed : String → List Object := fun pfx =>
  if pfx = "backups/orders/" then [⟨"backups/orders/a/", 5⟩, ⟨"backups/orders/b/", 5⟩] else []

/-- Copy results of a reader with two collections: a short-buffer round, a
boundary after which `currentCollection` is `items`, then the clean drain. -/
def twoCollections : List CopyResult :=
  [⟨CopyErr.ErrShortBuffer, "users"⟩, ⟨CopyErr.other "collection boundary", "items"⟩,
    ⟨CopyErr.nil, "items"⟩]

/-! ## Theorems: `UploadData` -/

theorem openedHandles_append (a b : List Event) :
    openedHandles (a ++ b) = openedHandles a ++ openedHandles b := by
  induction a with
  | nil => rfl
  | cons e a ih => cases e <;> simp [openedHandles, ih]

theorem committedHandles_append (a b : List Event) :
    committedHandles (a ++ b) = committedHandles a ++ committedHandles b := by
  induction a with
  | nil => rfl
  | cons e a ih => cases e <;> simp [committedHandles, ih]

/-- Invariant of the loop of `UploadData` when opens and commits succeed: the
handles opened are `0 .. opened-1`, all but the current one are committed. -/
theorem uploadLoop_invariant (w : World) (configStorj : ConfigStorj) (uploadFileName : String)
    (hopen : ∀ tr bucket key, w.uploadObject tr bucket key = none)
    (hcommit : ∀ tr handle, w.commit tr handle = none)
    (dbReader : List CopyResult) :
    ∀ (upload : Nat) (tr : List Event), (∃ r ∈ dbReader, r.err = CopyErr.nil) →
      openedHandles tr = List.range (upload + 1) → committedHandles tr = List.range upload →
      ∃ pre last, uploadLoop w configStorj uploadFileName dbReader upload (upload + 1) tr =
          some (Except.ok last, pre ++ [Event.copyBuffer last CopyErr.nil]) ∧
        openedHandles pre = List.range (last + 1) ∧ committedHandles pre = List.range last := by
  induction dbReader with
  | nil => intro _ _ h; simp at h
  | cons r rest ih =>
    intro upload tr hdrain ho hc
    cases hr : r.err with
    | nil =>
      refine ⟨tr, upload, ?_, ho, hc⟩
      simp only [uploadLoop, hr]
    | ErrShortBuffer =>
      have hrest : ∃ r1 ∈ rest, r1.err = CopyErr.nil := by
        obtain ⟨r1, hmem, h1⟩ := hdrain
        rcases List.mem_cons.1 hmem with rfl | hmem
        · rw [hr] at h1; cases h1
        · exact ⟨r1, hmem, h1⟩
      obtain ⟨pre, last, hres, h1, h2⟩ :=
        ih upload (tr ++ [Event.copyBuffer upload r.err]) hrest
          (by simp [openedHandles_append, openedHandles, ho])
          (by simp [committedHandles_append, committedHandles, hc])
      refine ⟨pre, last, ?_, h1, h2⟩
      simp only [uploadLoop, hr]
      rw [hr] at hres
      exact hres
    | other msg =>
      have hrest : ∃ r1 ∈ rest, r1.err = CopyErr.nil := by
        obtain ⟨r1, hmem, h1⟩ := hdrain
        rcases List.mem_cons.1 hmem with rfl | hmem
        · rw [hr] at h1; cases h1
        · exact ⟨r1, hmem, h1⟩
      obtain ⟨pre, last, hres, h1, h2⟩ :=
        ih (upload + 1)
          (tr ++ [Event.copyBuffer upload r.err] ++ [Event.commit upload] ++
            [Event.uploadObject (upload + 1) configStorj.Bucket
              (uploadKey configStorj uploadFileName r.currentCollection)] ++
            [Event.print ("Uploading " ++ uploadKey configStorj uploadFileName r.currentCollection ++
              " to " ++ configStorj.Bucket ++ "...\n")]) hrest
          (by simp [openedHandles_append, openedHandles, ho, List.range_succ])
          (by simp [committedHandles_append, committedHandles, hc, List.range_succ])
      refine ⟨pre, last, ?_, h1, h2⟩
      simp only [uploadLoop, hr, hcommit, hopen]
      rw [hr] at hres
      exact hres

/-- C1: when every open and every commit succeeds and the copy results contain
a clean drain (`nil`), `UploadData` returns normally; in its trace the handles
committed are exactly the handles opened, in the same order and without
repetition (every opened put-stream is committed exactly once), and the trace
ends with the last copy followed by the commit of the stream it copied to. -/
theorem UploadData_commits_every_open (w : World) (configStorj : ConfigStorj)
    (uploadFileName : String) (dbReader : List CopyResult) (firstCollection : String)
    (hopen : ∀ tr bucket key, w.uploadObject tr bucket key = none)
    (hcommit : ∀ tr handle, w.commit tr handle = none)
    (hdrain : ∃ r ∈ dbReader, r.err = CopyErr.nil) :
    ∃ tr, UploadData w configStorj uploadFileName dbReader firstCollection =
        some (Except.ok (), tr) ∧
      committedHandles tr = openedHandles tr ∧ (openedHandles tr).Nodup ∧
      ∃ pre last, tr = pre ++ [Event.copyBuffer last CopyErr.nil, Event.commit last] := by
  obtain ⟨pre, last, hres, h1, h2⟩ :=
    uploadLoop_invariant w configStorj uploadFileName hopen hcommit dbReader 0
      ([Event.uploadObject 0 configStorj.Bucket (uploadKey configStorj uploadFileName firstCollection)] ++
        [Event.print ("\nUploading " ++ uploadKey configStorj uploadFileName firstCollection ++
          " to " ++ configStorj.Bucket ++ "...\n")]) hdrain
      (by simp [openedHandles, List.range_succ]) (by simp [committedHandles])
  refine ⟨pre ++ [Event.copyBuffer last CopyErr.nil, Event.commit last], ?_, ?_, ?_, pre, last, rfl⟩
  · simp only [UploadData, hopen, hcommit]
    simp only [zero_add] at hres
    rw [hres]
    simp
  · simp [openedHandles_append, committedHandles_append, openedHandles, committedHandles, h1, h2,
      List.range_succ]
  · simp [openedHandles_append, openedHandles, h1, List.nodup_range]

/-- C1 at a reader with two collections: both put-streams are committed. -/
theorem UploadData_commits_every_open_witness :
    (∀ tr bucket key, (tableWorld 100 emptyStore []).uploadObject tr bucket key = none) ∧
    (∀ tr handle, (tableWorld 100 emptyStore []).commit tr handle = none) ∧
    (∃ r ∈ twoCollections, r.err = CopyErr.nil) ∧
    ∃ tr, UploadData (tableWorld 100 emptyStore []) exampleConfig "orders/b1" twoCollections "users" =
        some (Except.ok (), tr) ∧
      committedHandles tr = openedHandles tr ∧ (openedHandles tr).Nodup ∧
      ∃ pre last, tr = pre ++ [Event.copyBuffer last CopyErr.nil, Event.commit last] :=
  ⟨fun _ _ _ => rfl, fun _ _ => rfl, ⟨⟨CopyErr.nil, "items"⟩, by decide, rfl⟩,
    UploadData_commits_every_open (tableWorld 100 emptyStore []) exampleConfig "orders/b1"
      twoCollections "users" (fun _ _ _ => rfl) (fun _ _ => rfl)
      ⟨⟨CopyErr.nil, "items"⟩, by decide, rfl⟩⟩

/-! ## Theorems: `findLatestBackup` -/

/-- What the loop of `findLatestBackup` computes once `latestBackup` is set:
the first item of greatest creation time among those seen. -/
theorem latestLoop_some (now : Int) (items : List Object) :
    ∀ (i : Nat) (l : Object) (pre0 post0 : List Object), 2 ≤ i →
      (∀ x ∈ pre0, x.Created < l.Created) → (∀ x ∈ post0, x.Created ≤ l.Created) →
      ∃ pre o post, pre0 ++ l :: post0 ++ items = pre ++ o :: post ∧
        latestLoop now items i (some l) = Except.ok (some o) ∧
        (∀ x ∈ pre, x.Created < o.Created) ∧ (∀ x ∈ post, x.Created ≤ o.Created) := by
  induction items with
  | nil =>
    intro i l pre0 post0 _ hpre hpost
    exact ⟨pre0, l, post0, by simp, by simp [latestLoop], hpre, hpost⟩
  | cons item rest ih =>
    intro i l pre0 post0 hi hpre hpost
    by_cases hgt : item.Created > l.Created
    · obtain ⟨pre, o, post, heq, hres, h1, h2⟩ :=
        ih (i + 1) item (pre0 ++ l :: post0) [] (by omega)
          (by
            intro x hx
            rcases List.mem_append.1 hx with hx | hx
            · exact lt_trans (hpre x hx) hgt
            · rcases List.mem_cons.1 hx with rfl | hx
              · exact hgt
              · exact lt_of_le_of_lt (hpost x hx) hgt)
          (by simp)
      refine ⟨pre, o, post, ?_, ?_, h1, h2⟩
      · simpa using heq
      · simp only [latestLoop, show i ≠ 1 by omega, false_and, if_false, hgt, if_true]
        exact hres
    · obtain ⟨pre, o, post, heq, hres, h1, h2⟩ :=
        ih (i + 1) l pre0 (post0 ++ [item]) (by omega) hpre
          (by
            intro x hx
            rcases List.mem_append.1 hx with hx | hx
            · exact hpost x hx
            · simp only [List.mem_singleton] at hx
              subst hx
              exact not_lt.1 hgt)
      refine ⟨pre, o, post, ?_, ?_, h1, h2⟩
      · simpa using heq
      · simp only [latestLoop, show i ≠ 1 by omega, false_and, if_false, hgt]
        exact hres

/-- When the first listed item was created before the clock reading, the loop
of `findLatestBackup` returns the first item of greatest creation time. -/
theorem latestLoop_first_past (now : Int) (first : Object) (rest : List Object)
    (hpast : first.Created < now) :
    ∃ pre o post, first :: rest = pre ++ o :: post ∧
      latestLoop now (first :: rest) 1 none = Except.ok (some o) ∧
      (∀ x ∈ pre, x.Created < o.Created) ∧ (∀ x ∈ post, x.Created ≤ o.Created) := by
  obtain ⟨pre, o, post, heq, hres, h1, h2⟩ :=
    latestLoop_some now rest 2 first [] [] (by omega) (by simp) (by simp)
  refine ⟨pre, o, post, by simpa using heq, ?_, h1, h2⟩
  simp only [latestLoop, hpast, and_self, if_true]
  exact hres

/-- C2: when the listing under the database prefix is not empty, its items have
pairwise distinct creation times and all were created before the clock
reading, `findLatestBackup` returns an item of the listing whose creation time
is greater than that of every other item, in whatever order the items are
listed. -/
theorem findLatestBackup_returns_greatest (w : World) (configStorj : ConfigStorj)
    (databaseName : String) (tr : List Event)
    (hne : w.listObjects tr configStorj.Bucket (configStorj.UploadPath ++ databaseName ++ "/") ≠ [])
    (hdistinct : (w.listObjects tr configStorj.Bucket
      (configStorj.UploadPath ++ databaseName ++ "/")).Pairwise
        (fun a b => a.Created ≠ b.Created))
    (hpast : ∀ x ∈ w.listObjects tr configStorj.Bucket (configStorj.UploadPath ++ databaseName ++ "/"),
      x.Created <
        w.now (tr ++ [Event.listObjects configStorj.Bucket (configStorj.UploadPath ++ databaseName ++ "/")])) :
    ∃ o, findLatestBackup w configStorj databaseName tr =
        (Except.ok (some o),
          tr ++ [Event.listObjects configStorj.Bucket (configStorj.UploadPath ++ databaseName ++ "/")]) ∧
      o ∈ w.listObjects tr configStorj.Bucket (configStorj.UploadPath ++ databaseName ++ "/") ∧
      ∀ x ∈ w.listObjects tr configStorj.Bucket (configStorj.UploadPath ++ databaseName ++ "/"),
        x ≠ o → x.Created < o.Created := by
  cases hl : w.listObjects tr configStorj.Bucket (configStorj.UploadPath ++ databaseName ++ "/") with
  | nil => exact absurd hl hne
  | cons first rest =>
    rw [hl] at hdistinct hpast
    obtain ⟨pre, o, post, heq, hres, h1, h2⟩ :=
      latestLoop_first_past _ first rest (hpast first (by simp))
    refine ⟨o, ?_, ?_, ?_⟩
    · simp only [findLatestBackup, hl, hres]
    · rw [heq]; simp
    · intro x hx hxo
      rw [heq] at hx hdistinct
      rcases List.mem_append.1 hx with hx | hx
      · exact h1 x hx
      · rcases List.mem_cons.1 hx with rfl | hx
        · exact absurd rfl hxo
        · have hd := (List.pairwise_append.1 hdistinct).2.1
          have hne2 : o.Created ≠ x.Created := (List.pairwise_cons.1 hd).1 x hx
          exact lt_of_le_of_ne (h2 x hx) (fun h => hne2 h.symm)

/-- C2 at a database with backups created at 5, 7 and 3, listed in this order. -/
theorem findLatestBackup_returns_greatest_witness :
    (tableWorld 100 threeBackups []).listObjects [] exampleConfig.Bucket
      (exampleConfig.UploadPath ++ "orders" ++ "/") ≠ [] ∧
    ((tableWorld 100 threeBackups []).listObjects [] exampleConfig.Bucket
      (exampleConfig.UploadPath ++ "orders" ++ "/")).Pairwise (fun a b => a.Created ≠ b.Created) ∧
    (∀ x ∈ (tableWorld 100 threeBackups []).listObjects [] exampleConfig.Bucket
        (exampleConfig.UploadPath ++ "orders" ++ "/"),
      x.Created < (tableWorld 100 threeBackups []).now
        ([] ++ [Event.listObjects exampleConfig.Bucket (exampleConfig.UploadPath ++ "orders" ++ "/")])) ∧
    ∃ o, findLatestBackup (tableWorld 100 threeBackups []) exampleConfig "orders" [] =
        (Except.ok (some o),
          [] ++ [Event.listObjects exampleConfig.Bucket (exampleConfig.UploadPath ++ "orders" ++ "/")]) ∧
      o ∈ (tableWorld 100 threeBackups []).listObjects [] exampleConfig.Bucket
        (exampleConfig.UploadPath ++ "orders" ++ "/") ∧
      ∀ x ∈ (tableWorld 100 threeBackups []).listObjects [] exampleConfig.Bucket
          (exampleConfig.UploadPath ++ "orders" ++ "/"),
        x ≠ o → x.Created < o.Created :=
  ⟨by decide, by decide, by decide,
    findLatestBackup_returns_greatest (tableWorld 100 threeBackups []) exampleConfig "orders" []
      (by decide) (by decide) (by decide)⟩

/-- C3 fails on the code: with the backups `b` and `a` both created at 5 and
listed in this order, `findLatestBackup` returns `b`, whose backup id is the
greater of the two; with the listing in the other order it returns `a`. -/
theorem findLatestBackup_tie_follows_listing :
    findLatestBackup (tableWorld 100 tiedBackups []) exampleConfig "orders" [] =
      (Except.ok (some ⟨"backups/orders/b/", 5⟩), [Event.listObjects "bkt" "backups/orders/"]) ∧
    findLatestBackup (tableWorld 100 tiedBackupsReversed []) exampleConfig "orders" [] =
      (Except.ok (some ⟨"backups/orders/a/", 5⟩), [Event.listObjects "bkt" "backups/orders/"]) ∧
    (tiedBackups "backups/orders/").Perm (tiedBackupsReversed "backups/orders/") ∧
    filepath.Base "backups/orders/a/" < filepath.Base "backups/orders/b/" :=
  ⟨by decide, by decide, by decide, String.lt_iff_toList_lt.2 (by decide)⟩

/-- C3 as amended: when the first listed item was created before the clock
reading, `findLatestBackup` returns the first item, in listing order, among
those of greatest creation time: every item listed before it is strictly
older, no item listed after it is newer. Backup ids are not compared. -/
theorem findLatestBackup_first_of_greatest (w : World) (configStorj : ConfigStorj)
    (databaseName : String) (tr : List Event) (first : Object) (rest : List Object)
    (hlist : w.listObjects tr configStorj.Bucket (configStorj.UploadPath ++ databaseName ++ "/") =
      first :: rest)
    (hpast : first.Created <
      w.now (tr ++ [Event.listObjects configStorj.Bucket (configStorj.UploadPath ++ databaseName ++ "/")])) :
    ∃ pre o post, first :: rest = pre ++ o :: post ∧
      findLatestBackup w configStorj databaseName tr =
        (Except.ok (some o),
          tr ++ [Event.listObjects configStorj.Bucket (configStorj.UploadPath ++ databaseName ++ "/")]) ∧
      (∀ x ∈ pre, x.Created < o.Created) ∧ (∀ x ∈ post, x.Created ≤ o.Created) := by
  obtain ⟨pre, o, post, heq, hres, h1, h2⟩ := latestLoop_first_past _ first rest hpast
  refine ⟨pre, o, post, heq, ?_, h1, h2⟩
  simp only [findLatestBackup, hlist, hres]

/-- C3 as amended, at the tied backups `b` and `a`. -/
theorem findLatestBackup_first_of_greatest_witness :
    (tableWorld 100 tiedBackups []).listObjects [] exampleConfig.Bucket
      (exampleConfig.UploadPath ++ "orders" ++ "/") =
        ⟨"backups/orders/b/", 5⟩ :: [⟨"backups/orders/a/", 5⟩] ∧
    (5 : Int) < (tableWorld 100 tiedBackups []).now
      ([] ++ [Event.listObjects exampleConfig.Bucket (exampleConfig.UploadPath ++ "orders" ++ "/")]) ∧
    ∃ pre o post, (⟨"backups/orders/b/", 5⟩ : Object) :: [⟨"backups/orders/a/", 5⟩] = pre ++ o :: post ∧
      findLatestBackup (tableWorld 100 tiedBackups []) exampleConfig "orders" [] =
        (Except.ok (some o),
          [] ++ [Event.listObjects exampleConfig.Bucket (exampleConfig.UploadPath ++ "orders" ++ "/")]) ∧
      (∀ x ∈ pre, x.Created < o.Created) ∧ (∀ x ∈ post, x.Created ≤ o.Created) :=
  ⟨by decide, by decide,
    findLatestBackup_first_of_greatest (tableWorld 100 tiedBackups []) exampleConfig "orders" []
      ⟨"backups/orders/b/", 5⟩ [⟨"backups/orders/a/", 5⟩] (by decide) (by decide)⟩

/-! ## Theorems: `RestoreData` and `MatchAndRestore` -/

theorem splitChars_length (sep : Char) (s : List Char) :
    (strings.splitChars sep s).length = s.count sep + 1 := by
  induction s with
  | nil => simp [strings.splitChars]
  | cons c rest ih =>
    simp only [strings.splitChars]
    by_cases h : c = sep
    · subst h
      simp [ih]
    · simp only [h, if_false]
      cases hs : strings.splitChars sep rest with
      | nil => simp [hs] at ih
      | cons p ps =>
        rw [hs] at ih
        rw [List.count_cons_of_ne (fun h1 => h h1.symm)]
        simpa using ih

theorem Split_length_gt_one (s : String) (sep : Char) :
    (strings.Split s sep).length > 1 ↔ sep ∈ s.data := by
  simp only [strings.Split, List.length_map, splitChars_length]
  rw [← List.count_pos_iff]
  omega

/-- C4 fails on the code: with the databases `orders`, `orders_test` and
`billing` under the upload path `backups/` and the pattern `^orders`,
`MatchAndRestore` lists the upload path and restores nothing, because it tests
the pattern on the whole key (`backups/orders/`); the database names `orders`
and `orders_test` themselves match the pattern, `billing` does not. -/
theorem MatchAndRestore_tests_whole_key :
    MatchAndRestore (tableWorld 100 threeDatabases []) exampleConfig "^orders" true [] =
      (Except.ok (), [Event.listObjects "bkt" "backups/"]) ∧
    regexp.MatchString "^orders" (filepath.Base "backups/orders/") = Except.ok true ∧
    regexp.MatchString "^orders" (filepath.Base "backups/orders_test/") = Except.ok true ∧
    regexp.MatchString "^orders" (filepath.Base "backups/billing/") = Except.ok false ∧
    regexp.MatchString "^orders" "backups/orders/" = Except.ok false ∧
    regexp.MatchString "^orders" "backups/orders_test/" = Except.ok false := by
  decide

/-- C5 fails on the code: the exact restore of `orders/2024-01-01` from a store
without objects lists the prefix, downloads nothing, prints that the backup
was restored and returns normally. -/
theorem RestoreData_exact_empty_succeeds :
    (tableWorld 100 emptyStore []).listObjects
      [Event.print "Restoring the backup of orders/2024-01-01...\n"] "bkt"
      "backups/orders/2024-01-01/" = [] ∧
    RestoreData (tableWorld 100 emptyStore []) exampleConfig "orders/2024-01-01" false [] =
      (Except.ok (),
        [Event.print "Restoring the backup of orders/2024-01-01...\n",
          Event.listObjects "bkt" "backups/orders/2024-01-01/",
          Event.print "Latest backup of orders/2024-01-01/ restored.\n"]) := by
  decide

/-- C5 as amended: for a non-empty database/backupID whose prefix lists no
objects, the exact restore lists the prefix once, attempts no download, writes
no file and returns normally after printing its closing message. -/
theorem RestoreData_exact_empty (w : World) (configStorj : ConfigStorj) (databaseName : String)
    (tr : List Event) (hne : databaseName ≠ "")
    (hempty : ∀ tr1, w.listObjects tr1 configStorj.Bucket
      (configStorj.UploadPath ++
        (if checkSlash databaseName ≠ "/" then databaseName ++ "/" else databaseName)) = []) :
    RestoreData w configStorj databaseName false tr =
      (Except.ok (),
        tr ++ [Event.print ("Restoring the backup of " ++ databaseName ++ "...\n"),
          Event.listObjects configStorj.Bucket (configStorj.UploadPath ++
            (if checkSlash databaseName ≠ "/" then databaseName ++ "/" else databaseName)),
          Event.print ("Latest backup of " ++
            (if checkSlash databaseName ≠ "/" then databaseName ++ "/" else databaseName) ++
            " restored.\n")]) := by
  simp only [RestoreData, Bool.false_eq_true, if_false, hne, restoreCollections, hempty, downloadLoop,
    List.append_assoc, List.singleton_append, List.cons_append, List.nil_append]

/-- C5 as amended, at `orders/2024-01-01` on a store without objects. -/
theorem RestoreData_exact_empty_witness :
    ("orders/2024-01-01" : String) ≠ "" ∧
    (∀ tr1, (tableWorld 100 emptyStore []).listObjects tr1 exampleConfig.Bucket
      (exampleConfig.UploadPath ++
        (if checkSlash "orders/2024-01-01" ≠ "/" then "orders/2024-01-01" ++ "/"
          else "orders/2024-01-01")) = []) ∧
    RestoreData (tableWorld 100 emptyStore []) exampleConfig "orders/2024-01-01" false [] =
      (Except.ok (),
        [] ++ [Event.print ("Restoring the backup of " ++ "orders/2024-01-01" ++ "...\n"),
          Event.listObjects exampleConfig.Bucket (exampleConfig.UploadPath ++
            (if checkSlash "orders/2024-01-01" ≠ "/" then "orders/2024-01-01" ++ "/"
              else "orders/2024-01-01")),
          Event.print ("Latest backup of " ++
            (if checkSlash "orders/2024-01-01" ≠ "/" then "orders/2024-01-01" ++ "/"
              else "orders/2024-01-01") ++
            " restored.\n")]) :=
  ⟨by decide, fun _ => rfl,
    RestoreData_exact_empty (tableWorld 100 emptyStore []) exampleConfig "orders/2024-01-01" []
      (by decide) (fun _ => rfl)⟩

/-- C6 fails on the code: the latest restore of `orders` from a store without
objects lists the database prefix, gets a nil latest backup from
`findLatestBackup` and panics on `latestBackup.Key` with a nil pointer
dereference. -/
theorem RestoreData_latest_empty_panics :
    (tableWorld 100 emptyStore []).listObjects
      [Event.print "Restoring the latest backup of orders...\n"] "bkt" "backups/orders/" = [] ∧
    findLatestBackup (tableWorld 100 emptyStore []) exampleConfig "orders"
      [Event.print "Restoring the latest backup of orders...\n"] =
        (Except.ok none,
          [Event.print "Restoring the latest backup of orders...\n",
            Event.listObjects "bkt" "backups/orders/"]) ∧
    RestoreData (tableWorld 100 emptyStore []) exampleConfig "orders" true [] =
      (Except.error (Failure.panic "invalid memory address or nil pointer dereference"),
        [Event.print "Restoring the latest backup of orders...\n",
          Event.listObjects "bkt" "backups/orders/"]) := by
  decide

/-- C7 fails on the code: the pattern `orders` matches the keys of both
databases `orders` and `orders_test`; the download of the only collection of
`orders` fails, `MatchAndRestore` ends there with that failure, and the trace
holds no call for `orders_test`, whose restore on its own succeeds. -/
theorem MatchAndRestore_stops_at_failed_download :
    regexp.MatchString "orders" "backups/orders/" = Except.ok true ∧
    regexp.MatchString "orders" "backups/orders_test/" = Except.ok true ∧
    MatchAndRestore (tableWorld 100 twoDatabases ["backups/orders/b1/users.bson"]) exampleConfig
      "orders" true [] =
      (Except.error (Failure.fatal "download failed"),
        [Event.listObjects "bkt" "backups/",
          Event.print "Matching database:  backups/orders/\n",
          Event.print "Restoring the latest backup of orders...\n",
          Event.listObjects "bkt" "backups/orders/",
          Event.listObjects "bkt" "backups/orders/b1/",
          Event.downloadObject "bkt" "backups/orders/b1/users.bson"]) ∧
    RestoreData (tableWorld 100 twoDatabases ["backups/orders/b1/users.bson"]) exampleConfig
      "orders_test" true [] =
      (Except.ok (),
        [Event.print "Restoring the latest backup of orders_test...\n",
          Event.listObjects "bkt" "backups/orders_test/",
          Event.listObjects "bkt" "backups/orders_test/t1/",
          Event.downloadObject "bkt" "backups/orders_test/t1/items.bson",
          Event.mkdirAll "dump/t1",
          Event.writeFile "dump/t1/items.bson" [1, 2, 3],
          Event.print "Latest backup of orders_test restored.\n"]) := by
  decide

/-- C7 as amended: when the databases listed before a matched one were handled
without failure and the restore of that one ends in a fatal error (a fetch or
a write failed), `MatchAndRestore` ends with that same error and with the
trace as the failed restore left it: nothing listed after it is restored. -/
theorem MatchAndRestore_failure_is_final (w : World) (configStorj : ConfigStorj)
    (matchPattern : String) (pre post : List Object) (item : Object) (tr tr1 tr2 : List Event)
    (msg : String)
    (hlist : w.listObjects tr configStorj.Bucket configStorj.UploadPath = pre ++ item :: post)
    (hpre : matchLoop w configStorj matchPattern true pre
      (tr ++ [Event.listObjects configStorj.Bucket configStorj.UploadPath]) = (Except.ok (), tr1))
    (hmatch : w.matchString matchPattern item.Key = Except.ok true)
    (hfail : RestoreData w configStorj (filepath.Base item.Key) true
      (tr1 ++ [Event.print ("Matching database:  " ++ item.Key ++ "\n")]) =
        (Except.error (Failure.fatal msg), tr2)) :
    MatchAndRestore w configStorj matchPattern true tr = (Except.error (Failure.fatal msg), tr2) := by
  simp only [MatchAndRestore, hlist]
  simp only [Bool.true_eq_false, if_false]
  clear hlist
  generalize tr ++ [Event.listObjects configStorj.Bucket configStorj.UploadPath] = tr0 at hpre ⊢
  induction pre generalizing tr0 with
  | nil =>
    simp only [matchLoop] at hpre
    obtain rfl : tr0 = tr1 := by simpa using hpre
    simp [matchLoop, hmatch, hfail]
  | cons a pre ih =>
    simp only [List.cons_append, matchLoop] at hpre ⊢
    cases hm : w.matchString matchPattern a.Key with
    | error e => simp [hm] at hpre
    | ok b =>
      cases b with
      | false =>
        simp only [hm] at hpre ⊢
        exact ih tr0 hpre
      | true =>
        simp only [hm] at hpre ⊢
        rcases hr : RestoreData w configStorj (filepath.Base a.Key) true
          (tr0 ++ [Event.print ("Matching database:  " ++ a.Key ++ "\n")]) with ⟨r, tr3⟩
        cases r with
        | error f => simp [hr] at hpre
        | ok u =>
          simp only [hr] at hpre ⊢
          exact ih tr3 hpre

/-- C7 as amended, at the store with `orders` and `orders_test` where the
download of the collection of `orders` fails. -/
theorem MatchAndRestore_failure_is_final_witness :
    (tableWorld 100 twoDatabases ["backups/orders/b1/users.bson"]).listObjects [] exampleConfig.Bucket
      exampleConfig.UploadPath = [] ++ ⟨"backups/orders/", 0⟩ :: [⟨"backups/orders_test/", 0⟩] ∧
    matchLoop (tableWorld 100 twoDatabases ["backups/orders/b1/users.bson"]) exampleConfig "orders"
      true [] ([] ++ [Event.listObjects exampleConfig.Bucket exampleConfig.UploadPath]) =
        (Except.ok (), [Event.listObjects "bkt" "backups/"]) ∧
    MatchAndRestore (tableWorld 100 twoDatabases ["backups/orders/b1/users.bson"]) exampleConfig
      "orders" true [] =
      (Except.error (Failure.fatal "download failed"),
        [Event.listObjects "bkt" "backups/",
          Event.print "Matching database:  backups/orders/\n",
          Event.print "Restoring the latest backup of orders...\n",
          Event.listObjects "bkt" "backups/orders/",
          Event.listObjects "bkt" "backups/orders/b1/",
          Event.downloadObject "bkt" "backups/orders/b1/users.bson"]) :=
  ⟨by decide, by decide,
    MatchAndRestore_failure_is_final (tableWorld 100 twoDatabases ["backups/orders/b1/users.bson"])
      exampleConfig "orders" [] [⟨"backups/orders_test/", 0⟩] ⟨"backups/orders/", 0⟩ []
      [Event.listObjects "bkt" "backups/"] _ "download failed" (by decide) (by decide) (by decide)
      (by decide)⟩

/-- C8: called with `latest = false`, `MatchAndRestore` ends at once with the
fatal usage error `Error: match used without latest flag!`; the trace is left
as it was, so no call (list, get or put) reaches the storage session. -/
theorem MatchAndRestore_requires_latest (w : World) (configStorj : ConfigStorj)
    (matchPattern : String) (tr : List Event) :
    MatchAndRestore w configStorj matchPattern false tr =
      (Except.error (Failure.fatal "Error: match used without latest flag!"), tr) := by
  simp [MatchAndRestore]

/-- C10 fails on the code: the database name `orders/` contains a separator,
yet the latest restore removes the trailing separator, lists the prefixes
`backups/orders/` and `backups/orders/b2/` and restores the backup. -/
theorem RestoreData_latest_trailing_separator :
    '/' ∈ ("orders/" : String).data ∧
    RestoreData (tableWorld 100 threeBackups []) exampleConfig "orders/" true [] =
      (Except.ok (),
        [Event.print "Restoring the latest backup of orders/...\n",
          Event.listObjects "bkt" "backups/orders/",
          Event.listObjects "bkt" "backups/orders/b2/",
          Event.downloadObject "bkt" "backups/orders/b2/users.bson",
          Event.mkdirAll "dump/b2",
          Event.writeFile "dump/b2/users.bson" [1, 2, 3],
          Event.print "Latest backup of orders restored.\n"]) := by
  decide

/-- C10 as amended: when the database name still contains a separator after
one trailing separator, if present, has been removed, the latest restore ends
with the fatal usage error `Error: Invalid regular expression! ...` right
after its opening message, before any listing call. -/
theorem RestoreData_latest_rejects_separator (w : World) (configStorj : ConfigStorj)
    (databaseName : String) (tr : List Event)
    (hsep : '/' ∈ (if checkSlash databaseName = "/" then dropLastByte databaseName
      else databaseName).data) :
    RestoreData w configStorj databaseName true tr =
      (Except.error (Failure.fatal
        "Error: Invalid regular expression! It should only contain the patter of database name.\n"),
        tr ++ [Event.print ("Restoring the latest backup of " ++ databaseName ++ "...\n")]) := by
  have hne : databaseName ≠ "" := by
    rintro rfl
    revert hsep
    decide
  have h := (Split_length_gt_one _ '/').2 hsep
  simp only [RestoreData, if_true, hne, if_false, h]

/-- C10 as amended, at the database name `orders/2024`. -/
theorem RestoreData_latest_rejects_separator_witness :
    '/' ∈ (if checkSlash "orders/2024" = "/" then dropLastByte "orders/2024"
      else "orders/2024").data ∧
    RestoreData (tableWorld 100 threeBackups []) exampleConfig "orders/2024" true [] =
      (Except.error (Failure.fatal
        "Error: Invalid regular expression! It should only contain the patter of database name.\n"),
        [] ++ [Event.print ("Restoring the latest backup of " ++ "orders/2024" ++ "...\n")]) :=
  ⟨by decide,
    RestoreData_latest_rejects_separator (tableWorld 100 threeBackups []) exampleConfig
      "orders/2024" [] (by decide)⟩

/-! ## Theorems: the key scheme (`path/filepath`) -/

namespace filepath

theorem cleanLoop_nil (rooted : Bool) (fuel : Nat) (out : List Char) (dotdot : Nat) :
    cleanLoop rooted fuel [] out dotdot = out := by
  cases fuel <;> rfl

theorem cleanLoop_slash (rooted : Bool) (fuel : Nat) (rest out : List Char) (dotdot : Nat) :
    cleanLoop rooted (fuel + 1) ('/' :: rest) out dotdot = cleanLoop rooted fuel rest out dotdot := by
  simp [cleanLoop]

theorem takeWhile_elem (e rest : List Char) (he : '/' ∉ e) (hrest : rest = [] ∨ ∃ p, rest = '/' :: p) :
    (e ++ rest).takeWhile (fun x => decide (x ≠ '/')) = e := by
  induction e with
  | nil =>
    rcases hrest with rfl | ⟨p, rfl⟩ <;> simp
  | cons c e ih =>
    have hc : c ≠ '/' := fun h => he (by simp [h])
    have he2 : '/' ∉ e := fun h => he (by simp [h])
    simpa [List.takeWhile, hc] using ih he2

theorem dropWhile_elem (e rest : List Char) (he : '/' ∉ e) (hrest : rest = [] ∨ ∃ p, rest = '/' :: p) :
    (e ++ rest).dropWhile (fun x => decide (x ≠ '/')) = rest := by
  induction e with
  | nil =>
    rcases hrest with rfl | ⟨p, rfl⟩ <;> simp
  | cons c e ih =>
    have hc : c ≠ '/' := fun h => he (by simp [h])
    have he2 : '/' ∉ e := fun h => he (by simp [h])
    simpa [List.dropWhile, hc] using ih he2

/-- One round of `Clean` on a real path element copies it to the buffer. -/
theorem cleanLoop_normal (rooted : Bool) (fuel : Nat) (e rest out : List Char) (dotdot : Nat)
    (he : NormalElem e) (hrest : rest = [] ∨ ∃ p, rest = '/' :: p) :
    cleanLoop rooted (fuel + 1) (e ++ rest) out dotdot =
      cleanLoop rooted fuel rest
        ((if (rooted = true ∧ out.length ≠ 1) ∨ (rooted = false ∧ out.length ≠ 0) then out ++ ['/']
          else out) ++ e) dotdot := by
  obtain ⟨h0, h1, h2, h3⟩ := he
  have htw := takeWhile_elem e rest h3 hrest
  have hdw := dropWhile_elem e rest h3 hrest
  match e, h0, h1, h2, h3, htw, hdw with
  | c :: s, _, h1, h2, h3, htw, hdw =>
    have hc : c ≠ '/' := fun h => h3 (by simp [h])
    have hs : '/' ∉ s := fun h => h3 (by simp [h])
    simp only [List.cons_append] at htw hdw ⊢
    rw [cleanLoop]
    rw [if_neg hc]
    have c2 : ¬ (c = '.' ∧ (s ++ rest = [] ∨ (s ++ rest).head? = some '/')) := by
      rintro ⟨rfl, h⟩
      match s, h1, hs, h with
      | [], h1, _, _ => exact h1 rfl
      | d :: s1, _, hs, h =>
        have hd : d ≠ '/' := fun h => hs (by simp [h])
        simp [hd] at h
    rw [if_neg c2]
    have c3 : ¬ (c = '.' ∧ (s ++ rest).head? = some '.' ∧
        ((s ++ rest).tail = [] ∨ (s ++ rest).tail.head? = some '/')) := by
      rintro ⟨rfl, hh, h⟩
      match s, h1, h2, hs, hh, h with
      | [], h1, _, _, _, _ => exact h1 rfl
      | [d], _, h2, _, hh, _ =>
        simp at hh
        subst hh
        exact h2 rfl
      | d :: d2 :: s1, _, _, hs, _, h =>
        have hd : d2 ≠ '/' := fun h => hs (by simp [h])
        simp [hd] at h
    rw [if_neg c3]
    simp only [htw, hdw]


theorem backtrackLoop_ge (buf : List Char) (dotdot : Nat) :
    ∀ w, dotdot ≤ w → dotdot ≤ backtrackLoop buf dotdot w := by
  intro w
  induction w with
  | zero => intro h; simpa [backtrackLoop] using h
  | succ w ih =>
    intro h
    rw [backtrackLoop]
    split
    · rename_i hc
      exact ih (by omega)
    · exact h

theorem rootKept_backtrack (rooted : Bool) (out : List Char) (dotdot : Nat)
    (h : RootKept rooted out dotdot) (hlen : out.length > dotdot) :
    RootKept rooted (backtrack out dotdot) dotdot := by
  intro hr
  obtain ⟨hd, t, rfl⟩ := h hr
  refine ⟨hd, ?_⟩
  have hge := backtrackLoop_ge ('/' :: t) dotdot (('/' :: t).length - 1) (by omega)
  rw [hd] at hge
  unfold backtrack
  rw [hd]
  obtain ⟨k, hk⟩ : ∃ k, backtrackLoop ('/' :: t) 1 (('/' :: t).length - 1) = k + 1 :=
    ⟨backtrackLoop ('/' :: t) 1 (('/' :: t).length - 1) - 1, by omega⟩
  rw [hk]
  exact ⟨t.take k, rfl⟩

theorem rootKept_append (rooted : Bool) (out extra : List Char) (dotdot : Nat)
    (h : RootKept rooted out dotdot) : RootKept rooted (out ++ extra) dotdot := by
  intro hr
  obtain ⟨hd, t, rfl⟩ := h hr
  exact ⟨hd, t ++ extra, rfl⟩

/-- Reading one whole element and the separator after it leaves `Clean` at the
start of the next element, with the root separator still in the buffer. -/
theorem cleanLoop_segment (rooted : Bool) (s rest out : List Char) (dotdot fuel : Nat)
    (hs : '/' ∉ s) (hfuel : (s ++ '/' :: rest).length ≤ fuel) (hk : RootKept rooted out dotdot) :
    ∃ fuel1 out1 dotdot1, rest.length ≤ fuel1 ∧ RootKept rooted out1 dotdot1 ∧
      cleanLoop rooted fuel (s ++ '/' :: rest) out dotdot =
        cleanLoop rooted fuel1 rest out1 dotdot1 := by
  by_cases h0 : s = []
  · subst h0
    obtain ⟨f, rfl⟩ : ∃ f, fuel = f + 1 := ⟨fuel - 1, by simp at hfuel; omega⟩
    exact ⟨f, out, dotdot, by simp at hfuel; omega, hk, by simp [cleanLoop]⟩
  by_cases h1 : s = ['.']
  · subst h1
    obtain ⟨f, rfl⟩ : ∃ f, fuel = f + 2 := ⟨fuel - 2, by simp at hfuel; omega⟩
    exact ⟨f, out, dotdot, by simp at hfuel; omega, hk, by simp [cleanLoop]⟩
  by_cases h2 : s = ['.', '.']
  · subst h2
    obtain ⟨f, rfl⟩ : ∃ f, fuel = f + 2 := ⟨fuel - 2, by simp at hfuel; omega⟩
    have hlen : rest.length ≤ f := by simp at hfuel; omega
    by_cases hgt : out.length > dotdot
    · exact ⟨f, backtrack out dotdot, dotdot, hlen, rootKept_backtrack rooted out dotdot hk hgt,
        by simp [cleanLoop, hgt]⟩
    · cases rooted with
      | true => exact ⟨f, out, dotdot, hlen, hk, by simp [cleanLoop, hgt]⟩
      | false =>
        exact ⟨f, (if out.length > 0 then out ++ ['/'] else out) ++ ['.', '.'],
          (if out.length > 0 then out ++ ['/'] else out).length + 2, hlen,
          (fun h => Bool.noConfusion h), by simp [cleanLoop, hgt]⟩
  · obtain ⟨f, rfl⟩ : ∃ f, fuel = f + 2 := by
      refine ⟨fuel - 2, ?_⟩
      have : s.length ≠ 0 := fun h => h0 (List.length_eq_zero.1 h)
      simp at hfuel
      omega
    have hlen : rest.length ≤ f := by
      have : s.length ≠ 0 := fun h => h0 (List.length_eq_zero.1 h)
      simp at hfuel
      omega
    refine ⟨f, (if (rooted = true ∧ out.length ≠ 1) ∨ (rooted = false ∧ out.length ≠ 0)
        then out ++ ['/'] else out) ++ s, dotdot, hlen, ?_, ?_⟩
    · split
      · rw [List.append_assoc]; exact rootKept_append rooted out _ dotdot hk
      · exact rootKept_append rooted out _ dotdot hk
    · rw [cleanLoop_normal rooted (f + 1) s ('/' :: rest) out dotdot ⟨h0, h1, h2, hs⟩
        (Or.inr ⟨rest, rfl⟩), cleanLoop_slash]

/-- Reading a stretch of whole elements leaves `Clean` at the start of what
follows, with the root separator still in the buffer. -/
theorem cleanLoop_closed (rooted : Bool) (pre : List Char) (hpre : Closed pre) :
    ∀ (rest out : List Char) (dotdot fuel : Nat), (pre ++ rest).length ≤ fuel →
      RootKept rooted out dotdot →
      ∃ fuel1 out1 dotdot1, rest.length ≤ fuel1 ∧ RootKept rooted out1 dotdot1 ∧
        cleanLoop rooted fuel (pre ++ rest) out dotdot =
          cleanLoop rooted fuel1 rest out1 dotdot1 := by
  induction hpre with
  | nil =>
    intro rest out dotdot fuel hfuel hk
    exact ⟨fuel, out, dotdot, by simpa using hfuel, hk, rfl⟩
  | seg s p hs _ ih =>
    intro rest out dotdot fuel hfuel hk
    have e : s ++ '/' :: p ++ rest = s ++ '/' :: (p ++ rest) := by simp
    rw [e] at hfuel ⊢
    obtain ⟨f1, o1, d1, hlen1, hk1, heq1⟩ :=
      cleanLoop_segment rooted s (p ++ rest) out dotdot fuel hs hfuel hk
    obtain ⟨f2, o2, d2, hlen2, hk2, heq2⟩ := ih rest o1 d1 f1 hlen1 hk1
    exact ⟨f2, o2, d2, hlen2, hk2, heq1.trans heq2⟩

theorem closed_append_slash (q : List Char) : Closed (q ++ ['/']) := by
  induction q with
  | nil => exact Closed.seg [] [] (by simp) Closed.nil
  | cons c q ih =>
    by_cases hc : c = '/'
    · subst hc
      exact Closed.seg [] (q ++ ['/']) (by simp) ih
    · generalize hq : q ++ ['/'] = z at ih
      cases ih with
      | nil => simp at hq
      | seg s p hs hp =>
        have : c :: q ++ ['/'] = (c :: s) ++ '/' :: p := by simp [hq]
        rw [this]
        exact Closed.seg (c :: s) p (by simp [hs, Ne.symm hc]) hp


/-- The last element of a path that ends in a separator-free, non-empty element. -/
theorem baseChars_append (z b : List Char) (hb : b ≠ []) (hs : '/' ∉ b)
    (hz : z = [] ∨ ∃ q, z = q ++ ['/']) : baseChars (z ++ b) = b := by
  have hne : z ++ b ≠ [] := by simp [hb]
  have hrev : b.reverse ≠ [] := by simpa using hb
  have hs2 : '/' ∉ b.reverse := by simpa using hs
  have hdrop : (z ++ b).reverse.dropWhile (fun x => decide (x = '/')) = (z ++ b).reverse := by
    rw [List.reverse_append]
    match hbr : b.reverse, hrev with
    | x :: y, _ =>
      have hx : x ≠ '/' := fun h => hs2 (by rw [hbr]; simp [h])
      simp [List.dropWhile, hx]
  have hrest : z.reverse = [] ∨ ∃ p, z.reverse = '/' :: p := by
    rcases hz with rfl | ⟨q, rfl⟩
    · exact Or.inl rfl
    · exact Or.inr ⟨q.reverse, by simp⟩
  have htake : (z ++ b).reverse.takeWhile (fun x => decide (x ≠ '/')) = b.reverse := by
    rw [List.reverse_append]
    exact takeWhile_elem b.reverse z.reverse hs2 hrest
  unfold baseChars
  simp only [hne, if_false, hdrop, List.reverse_reverse, htake]
  simp [hb]

theorem dir_strip (y cf : List Char) (hcf : '/' ∉ cf) :
    ((y ++ '/' :: cf).reverse.dropWhile (fun x => decide (x ≠ '/'))).reverse = y ++ ['/'] := by
  have e : (y ++ '/' :: cf).reverse = cf.reverse ++ '/' :: y.reverse := by simp
  rw [e, dropWhile_elem cf.reverse ('/' :: y.reverse) (by simpa using hcf) (Or.inr ⟨_, rfl⟩)]
  simp

/-- After a stretch of whole elements, a real element followed by a final
separator ends the cleaned path. -/
theorem cleanLoop_last_elem (rooted : Bool) (pre b out : List Char) (dotdot fuel : Nat)
    (hpre : Closed pre) (hb : NormalElem b) (hfuel : (pre ++ (b ++ ['/'])).length ≤ fuel)
    (hk : RootKept rooted out dotdot) :
    ∃ z, (z = [] ∨ ∃ q, z = q ++ ['/']) ∧
      cleanLoop rooted fuel (pre ++ (b ++ ['/'])) out dotdot = z ++ b := by
  obtain ⟨f1, o1, d1, hlen1, hk1, heq1⟩ :=
    cleanLoop_closed rooted pre hpre (b ++ ['/']) out dotdot fuel hfuel hk
  have hbl : b.length ≠ 0 := fun h => hb.1 (List.length_eq_zero.1 h)
  obtain ⟨f, rfl⟩ : ∃ f, f1 = f + 2 := ⟨f1 - 2, by simp at hlen1; omega⟩
  rw [heq1, cleanLoop_normal rooted (f + 1) b ['/'] o1 d1 hb (Or.inr ⟨[], rfl⟩), cleanLoop_slash,
    cleanLoop_nil]
  refine ⟨_, ?_, rfl⟩
  split
  · exact Or.inr ⟨o1, rfl⟩
  · rename_i hcond
    cases rooted with
    | true =>
      obtain ⟨_, t, rfl⟩ := hk1 rfl
      have : t = [] := by
        by_contra ht
        apply hcond
        left
        refine ⟨rfl, ?_⟩
        simpa using ht
      subst this
      exact Or.inr ⟨[], rfl⟩
    | false =>
      left
      by_contra ht
      apply hcond
      right
      exact ⟨rfl, fun h => ht (List.length_eq_zero.1 h)⟩

/-- The directory of a key `x/b/cf` ends in the element `b`. -/
theorem dirChars_key (x b cf : List Char) (hb : NormalElem b) (hcf : '/' ∉ cf) :
    ∃ z, (z = [] ∨ ∃ q, z = q ++ ['/']) ∧ dirChars (x ++ '/' :: (b ++ '/' :: cf)) = z ++ b := by
  have e : x ++ '/' :: (b ++ '/' :: cf) = (x ++ '/' :: b) ++ '/' :: cf := by simp
  have hbne : ∀ z, z ++ b ≠ [] := fun z => by simp [hb.1]
  unfold dirChars
  rw [e, dir_strip _ cf hcf]
  match x with
  | [] =>
    obtain ⟨z, hz, heq⟩ := cleanLoop_last_elem true [] b ['/'] 1 (b ++ ['/']).length.succ
      Closed.nil hb (by simp) (fun _ => ⟨rfl, [], rfl⟩)
    refine ⟨z, hz, ?_⟩
    simp only [List.nil_append] at heq
    simp only [List.nil_append, List.cons_append, cleanChars, IsPathSeparator, beq_self_eq_true,
      if_true, List.length_cons]
    simp only [Nat.succ_eq_add_one, List.length_append, List.length_cons, List.length_nil] at heq
    simp only [List.length_append, List.length_cons, List.length_nil, heq]
    simp [hb.1]
  | c :: x1 =>
    by_cases hc : c = '/'
    · subst hc
      obtain ⟨z, hz, heq⟩ := cleanLoop_last_elem true (x1 ++ ['/']) b ['/'] 1
        (x1 ++ ['/'] ++ (b ++ ['/'])).length.succ
        (closed_append_slash x1) hb (by simp) (fun _ => ⟨rfl, [], rfl⟩)
      refine ⟨z, hz, ?_⟩
      have e2 : '/' :: x1 ++ '/' :: b ++ ['/'] = '/' :: (x1 ++ ['/'] ++ (b ++ ['/'])) := by simp
      rw [e2]
      simp only [cleanChars, IsPathSeparator, beq_self_eq_true, if_true, List.length_cons]
      simp only [Nat.succ_eq_add_one] at heq
      rw [heq]
      simp [hb.1]
    · obtain ⟨z, hz, heq⟩ := cleanLoop_last_elem false (c :: x1 ++ ['/']) b [] 0
        (c :: x1 ++ ['/'] ++ (b ++ ['/'])).length
        (closed_append_slash (c :: x1)) hb (le_refl _) (fun h => Bool.noConfusion h)
      refine ⟨z, hz, ?_⟩
      have e2 : c :: x1 ++ '/' :: b ++ ['/'] = c :: (x1 ++ ['/'] ++ (b ++ ['/'])) := by simp
      have e3 : c :: x1 ++ ['/'] ++ (b ++ ['/']) = c :: (x1 ++ ['/'] ++ (b ++ ['/'])) := by simp
      rw [e3] at heq
      rw [e2]
      simp only [cleanChars, IsPathSeparator, beq_iff_eq, hc, if_false]
      rw [heq]
      simp [hb.1]

/-- Joining `dump` with two real elements gives `dump/b/cf`. -/
theorem joinChars_dump (b cf : List Char) (hb : NormalElem b) (hcf : NormalElem cf) :
    joinChars [['d', 'u', 'm', 'p'], b, cf] = ['d', 'u', 'm', 'p', '/'] ++ b ++ '/' :: cf := by
  have hd : NormalElem ['d', 'u', 'm', 'p'] := by
    refine ⟨by simp, by simp, by simp, by decide⟩
  have e : joinSep [['d', 'u', 'm', 'p'], b, cf] = ['d', 'u', 'm', 'p'] ++ '/' :: (b ++ '/' :: cf) := by
    simp [joinSep]
  have hl : ('d' :: 'u' :: 'm' :: 'p' :: '/' :: (b ++ '/' :: cf)).length =
      (b.length + cf.length + 1) + 5 := by
    simp
    omega
  have hstep : cleanLoop false ((b.length + cf.length + 1) + 5)
      (['d', 'u', 'm', 'p'] ++ '/' :: (b ++ '/' :: cf)) [] 0 =
        ['d', 'u', 'm', 'p', '/'] ++ b ++ '/' :: cf := by
    rw [cleanLoop_normal false _ _ _ _ _ hd (Or.inr ⟨_, rfl⟩), cleanLoop_slash,
      cleanLoop_normal false _ _ _ _ _ hb (Or.inr ⟨_, rfl⟩), cleanLoop_slash]
    have e4 : cf = cf ++ [] := by simp
    rw [e4, cleanLoop_normal false _ _ _ _ _ hcf (Or.inl rfl), cleanLoop_nil]
    simp
  simp only [joinChars, ne_eq, List.cons_ne_nil, not_false_eq_true, if_true, e]
  simp only [List.cons_append, List.nil_append] at hstep
  simp only [List.cons_append, List.nil_append, cleanChars, IsPathSeparator,
    show ('d' == '/') = false by decide, Bool.false_eq_true, if_false, hl, hstep]
  simp

end filepath

/-- C9 fails on the code: with upload path `backups/`, database `orders`,
backup id `..` and collection `users`, the uploaded key is
`backups/orders/../users.bson`, whose directory cleans to `backups`; the local
name derived is `dump/backups/users.bson`, not `dump/../users.bson`. With
backup id `.` the local name derived is `dump/orders/users.bson`, not
`dump/./users.bson`. -/
theorem downloadFileName_dotdot_backup :
    (".." : String) ≠ "" ∧ '/' ∉ ("orders" : String).data ∧ '/' ∉ (".." : String).data ∧
    '/' ∉ ("users" : String).data ∧
    uploadKey exampleConfig ("orders" ++ "/" ++ "..") "users" = "backups/orders/../users.bson" ∧
    downloadFileName (uploadKey exampleConfig ("orders" ++ "/" ++ "..") "users") =
      "dump/backups/users.bson" ∧
    downloadFileName (uploadKey exampleConfig ("orders" ++ "/" ++ "..") "users") ≠
      "dump/" ++ ".." ++ "/" ++ "users" ++ ".bson" ∧
    downloadFileName (uploadKey exampleConfig ("orders" ++ "/" ++ ".") "users") =
      "dump/orders/users.bson" ∧
    downloadFileName (uploadKey exampleConfig ("orders" ++ "/" ++ ".") "users") ≠
      "dump/" ++ "." ++ "/" ++ "users" ++ ".bson" := by
  decide

/-- C9 as amended: for every upload path and database, every backup id that is
not empty, is not `.` or `..` and has no separator, and every collection name
without separator, the key `UploadData` builds
(`UploadPath + database + "/" + backupID + "/" + collection + ".bson"`) gives
back, in `RestoreData`, the local name `dump/<backupID>/<collection>.bson`. -/
theorem downloadFileName_uploadKey (configStorj : ConfigStorj)
    (database backupID collection : String)
    (hb1 : backupID ≠ "") (hb2 : backupID ≠ ".") (hb3 : backupID ≠ "..")
    (hb4 : '/' ∉ backupID.data) (hc : '/' ∉ collection.data) :
    downloadFileName (uploadKey configStorj (database ++ "/" ++ backupID) collection) =
      "dump/" ++ backupID ++ "/" ++ collection ++ ".bson" := by
  have hb : filepath.NormalElem backupID.data := by
    refine ⟨fun h => hb1 (String.ext h), fun h => hb2 (String.ext h), fun h => hb3 (String.ext h), hb4⟩
  have hcf : filepath.NormalElem (collection.data ++ ['.', 'b', 's', 'o', 'n']) := by
    refine ⟨by simp, ?_, ?_, ?_⟩
    · intro h
      have := congrArg List.length h
      simp at this
    · intro h
      have := congrArg List.length h
      simp at this
    · simp [hc]
  have hkey : (uploadKey configStorj (database ++ "/" ++ backupID) collection).data =
      (configStorj.UploadPath.data ++ database.data) ++
        '/' :: (backupID.data ++ '/' :: (collection.data ++ ['.', 'b', 's', 'o', 'n'])) := by
    simp [uploadKey, String.data_append]
  obtain ⟨z, hz, hdir⟩ := filepath.dirChars_key (configStorj.UploadPath.data ++ database.data)
    backupID.data (collection.data ++ ['.', 'b', 's', 'o', 'n']) hb hcf.2.2.2
  have hbase1 : filepath.baseChars (filepath.dirChars
      (uploadKey configStorj (database ++ "/" ++ backupID) collection).data) = backupID.data := by
    rw [hkey, hdir]
    exact filepath.baseChars_append z backupID.data hb.1 hb.2.2.2 hz
  have hbase2 : filepath.baseChars
      (uploadKey configStorj (database ++ "/" ++ backupID) collection).data =
        collection.data ++ ['.', 'b', 's', 'o', 'n'] := by
    rw [hkey]
    have e : (configStorj.UploadPath.data ++ database.data) ++
        '/' :: (backupID.data ++ '/' :: (collection.data ++ ['.', 'b', 's', 'o', 'n'])) =
        ((configStorj.UploadPath.data ++ database.data) ++ '/' :: backupID.data ++ ['/']) ++
          (collection.data ++ ['.', 'b', 's', 'o', 'n']) := by simp
    rw [e]
    exact filepath.baseChars_append _ _ hcf.1 hcf.2.2.2 (Or.inr ⟨_, rfl⟩)
  apply String.ext
  have hj := filepath.joinChars_dump backupID.data (collection.data ++ ['.', 'b', 's', 'o', 'n']) hb hcf
  simp only [downloadFileName, filepath.Join, filepath.Base, filepath.Dir, List.map, hbase1, hbase2]
  rw [hj]
  simp [String.data_append]

/-- C9 as amended, at database `orders`, backup id `2024-01-01` and collection
`users`. -/
theorem downloadFileName_uploadKey_witness :
    ("2024-01-01" : String) ≠ "" ∧ ("2024-01-01" : String) ≠ "." ∧ ("2024-01-01" : String) ≠ ".." ∧
    '/' ∉ ("2024-01-01" : String).data ∧ '/' ∉ ("users" : String).data ∧
    downloadFileName (uploadKey exampleConfig ("orders" ++ "/" ++ "2024-01-01") "users") =
      "dump/" ++ "2024-01-01" ++ "/" ++ "users" ++ ".bson" :=
  ⟨by decide, by decide, by decide, by decide, by decide,
    downloadFileName_uploadKey exampleConfig "orders" "2024-01-01" "users"
      (by decide) (by decide) (by decide) (by decide) (by decide)⟩

end Connector
